import Mathlib

/-
  Shallow embedding of the light-matrix generic vector-based matrix
  evaluation engine (matrix_vector_eval.h).

  The C++ source is template metaprogramming over matrix/expression types.
  We embed an expression type together with its compile-time traits as a
  single record: the Bool / Option fields play the role of the type-level
  traits (is_dense_mat, ct_has_continuous_layout, ct_rows, ...), while the
  Nat / function fields are the run-time content (dimensions, storage,
  logical elements).  Machine index arithmetic (index_t) is modelled by Nat;
  raw pointers are modelled by total functions Nat -> T from an offset to
  the stored value, and pointer bumping (p += ldim) becomes precomposition
  with an offset shift.
-/

set_option maxHeartbeats 1600000

/-- A matrix expression together with its compile-time traits.
Fields mirror the trait queries used by matrix_vector_eval.h:
is_dense corresponds to is_dense_mat, continuous to ct_has_continuous_layout,
is_const marks the const_matrix specialization (with value the broadcast
scalar), ct_rows / ct_cols are the compile-time dimensions (none = dynamic),
nrows / ncols / ldim / data are the run-time shape and dense storage, and
elem is the logical element function (row, column) of the expression. -/
structure MatExpr (T : Type) where
  is_dense : Bool
  continuous : Bool
  is_const : Bool
  value : T
  ct_rows : Option Nat
  ct_cols : Option Nat
  nrows : Nat
  ncols : Nat
  ldim : Nat
  data : Nat → T
  elem : Nat → Nat → T

/-- A dense destination (or cache) matrix: IDenseMatrix.  ct_rows / ct_cols
are its compile-time dimensions (none = dynamic); data is the writable
storage reached from ptr_data, ldim the lead dimension. -/
@[ext]
structure DenseMat (T : Type) where
  ct_rows : Option Nat
  ct_cols : Option Nat
  nrows : Nat
  ncols : Nat
  ldim : Nat
  data : Nat → T

def DenseMat.nelems {T : Type} (m : DenseMat T) : Nat := m.nrows * m.ncols

/-- The flattened (column-major) view of an expression: flatten k is the
element at flat position k. -/
def MatExpr.flatten {T : Type} (e : MatExpr T) (k : Nat) : T :=
  e.elem (k % e.nrows) (k / e.nrows)

-- Policy tags (Org axis; the Means axis has only by_scalars implemented,
-- so it is left implicit in the embedding).

inductive Org where
  | as_linear_vec : Org
  | per_column : Org
deriving DecidableEq

/- ------------------------------------------------------------------
   Specific evaluators
   ------------------------------------------------------------------ -/

/-- continuous_linear_evaluator: wraps the raw data pointer of a dense
matrix with continuous layout. -/
structure continuous_linear_evaluator (T : Type) where
  m_data : Nat → T

def continuous_linear_evaluator.ofMat {T : Type} (X : MatExpr T) :
    continuous_linear_evaluator T :=
  { m_data := X.data }

def continuous_linear_evaluator.get_value {T : Type}
    (ev : continuous_linear_evaluator T) (i : Nat) : T := ev.m_data i

/-- dense_percol_evaluator: wraps the data pointer and lead dimension of a
dense matrix; next_column bumps the pointer by the lead dimension. -/
structure dense_percol_evaluator (T : Type) where
  m_ldim : Nat
  m_data : Nat → T

def dense_percol_evaluator.ofMat {T : Type} (X : MatExpr T) :
    dense_percol_evaluator T :=
  { m_ldim := X.ldim, m_data := X.data }

def dense_percol_evaluator.get_value {T : Type}
    (ev : dense_percol_evaluator T) (i : Nat) : T := ev.m_data i

def dense_percol_evaluator.next_column {T : Type}
    (ev : dense_percol_evaluator T) : dense_percol_evaluator T :=
  { m_ldim := ev.m_ldim, m_data := fun t => ev.m_data (t + ev.m_ldim) }

/-- const_linear_evaluator: wraps the scalar of a const_matrix. -/
structure const_linear_evaluator (T : Type) where
  m_val : T

def const_linear_evaluator.ofMat {T : Type} (X : MatExpr T) :
    const_linear_evaluator T :=
  { m_val := X.value }

def const_linear_evaluator.get_value {T : Type}
    (ev : const_linear_evaluator T) (_ : Nat) : T := ev.m_val

/-- const_percol_evaluator: wraps the scalar of a const_matrix;
next_column is a no-op. -/
structure const_percol_evaluator (T : Type) where
  m_val : T

def const_percol_evaluator.ofMat {T : Type} (X : MatExpr T) :
    const_percol_evaluator T :=
  { m_val := X.value }

def const_percol_evaluator.get_value {T : Type}
    (ev : const_percol_evaluator T) (_ : Nat) : T := ev.m_val

def const_percol_evaluator.next_column {T : Type}
    (ev : const_percol_evaluator T) : const_percol_evaluator T := ev

/-- Modelled from the spec: the dense_matrix constructor used for the private
cache of the cached evaluators lives in matrix_classes.h, which is not among
the provided sources.  Per the spec, it fully materializes the source
expression once into a fresh contiguous (lead dimension = row count)
column-major temporary. -/
def dense_matrix_ofExpr {T : Type} (e : MatExpr T) : DenseMat T :=
  { ct_rows := none
    ct_cols := none
    nrows := e.nrows
    ncols := e.ncols
    ldim := e.nrows
    data := fun k => e.elem (k % e.nrows) (k / e.nrows) }

/-- Modelled from the spec: the sequence of (row, column) logical-element
reads performed by the one-pass materialization of an nr-by-nc expression
into the cache, in the order they happen (one read per flat cache cell). -/
def materializeTrace (nr nc : Nat) : List (Nat × Nat) :=
  (List.range (nr * nc)).map (fun k => (k % nr, k / nr))

/-- cached_linear_evaluator: owns a private dense cache materialized from
the expression at construction time, and reads from its data pointer. -/
structure cached_linear_evaluator (T : Type) where
  m_cache : DenseMat T
  m_data : Nat → T

def cached_linear_evaluator.ofExpr {T : Type} (X : MatExpr T) :
    cached_linear_evaluator T :=
  { m_cache := dense_matrix_ofExpr X, m_data := (dense_matrix_ofExpr X).data }

def cached_linear_evaluator.get_value {T : Type}
    (ev : cached_linear_evaluator T) (i : Nat) : T := ev.m_data i

/-- cached_percol_evaluator: owns a private dense cache materialized from
the expression at construction time; per-column reads from its pointer,
advanced by the lead dimension of the cache. -/
structure cached_percol_evaluator (T : Type) where
  m_cache : DenseMat T
  m_ldim : Nat
  m_data : Nat → T

def cached_percol_evaluator.ofExpr {T : Type} (X : MatExpr T) :
    cached_percol_evaluator T :=
  { m_cache := dense_matrix_ofExpr X
    m_ldim := (dense_matrix_ofExpr X).ldim
    m_data := (dense_matrix_ofExpr X).data }

def cached_percol_evaluator.get_value {T : Type}
    (ev : cached_percol_evaluator T) (i : Nat) : T := ev.m_data i

def cached_percol_evaluator.next_column {T : Type}
    (ev : cached_percol_evaluator T) : cached_percol_evaluator T :=
  { m_cache := ev.m_cache
    m_ldim := ev.m_ldim
    m_data := fun t => ev.m_data (t + ev.m_ldim) }

/- ------------------------------------------------------------------
   Evaluation context (loop engine)
   ------------------------------------------------------------------ -/

/-- Pointwise store: the value of memory d after the write d[a] = v. -/
def updFun {T : Type} (d : Nat → T) (a : Nat) (v : T) : Nat → T :=
  fun k => if k = a then v else d k

/-- Replay a list of (address, value) writes, in order, on memory d. -/
def applyWrites {T : Type} (d : Nat → T) : List (Nat × T) → Nat → T
  | [] => d
  | (a, v) :: ws => applyWrites (updFun d a v) ws

/-- One inner loop pass: for i in [0, r) write pd[base + i] = get i,
in increasing i order. -/
def colBlock {T : Type} (get : Nat → T) (base r : Nat) : List (Nat × T) :=
  (List.range r).map (fun i => (base + i, get i))

/-- The write sequence of linear_eval_impl: a single loop over flat index i
from 0 to len, writing pd[i] = evaluator.get_value(i). -/
def linear_eval_writes {T : Type} (get : Nat → T) (len : Nat) : List (Nat × T) :=
  colBlock get 0 len

/-- The traversal length of linear_eval_impl: the compile-time size CTSize
when statically known (the specialization with a constant bound), otherwise
dst.nelems() (the DynamicDim specialization). -/
def linear_len {T : Type} (CTSize : Option Nat) (dst : DenseMat T) : Nat :=
  match CTSize with
  | some n => n
  | none => dst.nelems

/-- linear_eval_impl (both specializations, selected by CTSize):
writes pd[i] = evaluator.get_value(i) for i in [0, len). -/
def linear_eval_impl {T : Type} (CTSize : Option Nat) (get : Nat → T)
    (dst : DenseMat T) : DenseMat T :=
  { dst with data := applyWrites dst.data (linear_eval_writes get (linear_len CTSize dst)) }

/-- The write sequence of percol_eval_impl, generic in the per-column
evaluator: for each of c remaining columns, run the inner row loop at the
current column base, then advance the evaluator and bump the base by ldim. -/
def percol_eval_writes {T E : Type} (get : E → Nat → T) (next : E → E)
    (r ldim : Nat) : E → Nat → Nat → List (Nat × T)
  | _, _, 0 => []
  | ev, base, c + 1 =>
      colBlock (get ev) base r ++
        percol_eval_writes get next r ldim (next ev) (base + ldim) c

/-- The inner-loop row count of percol_eval_impl: the compile-time row
count CTRows when statically known, otherwise dst.nrows() (the DynamicDim
specialization). -/
def percol_rows {T : Type} (CTRows : Option Nat) (dst : DenseMat T) : Nat :=
  match CTRows with
  | some n => n
  | none => dst.nrows

/- ------------------------------------------------------------------
   Evaluator map and cost model
   ------------------------------------------------------------------ -/

def VEC_EVAL_CACHE_COST : Nat := 1000
def SHORTVEC_LENGTH_THRESHOLD : Nat := 4
def SHORTVEC_PERCOL_COST : Nat := 200

/-- The concrete evaluator kind resolved for linear organization. -/
inductive LinEvKind where
  | continuous : LinEvKind
  | cached : LinEvKind
  | constant : LinEvKind
deriving DecidableEq

/-- The concrete evaluator kind resolved for per-column organization. -/
inductive PercolEvKind where
  | dense : PercolEvKind
  | cached : PercolEvKind
  | constant : PercolEvKind
deriving DecidableEq

/-- generic_vector_eval, as_linear_vec: can_direct. -/
def linear_can_direct {T : Type} (e : MatExpr T) : Bool :=
  e.is_dense && e.continuous

/-- generic_vector_eval, as_linear_vec: cost. -/
def generic_linear_cost {T : Type} (e : MatExpr T) : Nat :=
  if linear_can_direct e then 0 else VEC_EVAL_CACHE_COST

/-- generic_vector_eval, as_linear_vec: evaluator_type. -/
def generic_linear_evaluator {T : Type} (e : MatExpr T) : LinEvKind :=
  if linear_can_direct e then LinEvKind.continuous else LinEvKind.cached

/-- generic_vector_eval, per_column: can_direct. -/
def percol_can_direct {T : Type} (e : MatExpr T) : Bool :=
  e.is_dense

/-- Modelled from the spec: has_short_col compares ct_rows against
SHORTVEC_LENGTH_THRESHOLD.  The ct_rows trait and the DynamicDim sentinel
are defined in matrix headers outside the provided sources; following the
spec, the comparison holds exactly when the compile-time row count is
statically known and below the threshold, and a dynamic row count is never
short. -/
def has_short_col {T : Type} (e : MatExpr T) : Bool :=
  match e.ct_rows with
  | some r => decide (r < SHORTVEC_LENGTH_THRESHOLD)
  | none => false

/-- generic_vector_eval, per_column: normal_cost. -/
def generic_percol_normal_cost {T : Type} (e : MatExpr T) : Nat :=
  if percol_can_direct e then 0 else VEC_EVAL_CACHE_COST

/-- generic_vector_eval, per_column: shortv_cost. -/
def generic_percol_shortv_cost {T : Type} (e : MatExpr T) : Nat :=
  SHORTVEC_PERCOL_COST + generic_percol_normal_cost e

/-- generic_vector_eval, per_column: cost. -/
def generic_percol_cost {T : Type} (e : MatExpr T) : Nat :=
  if has_short_col e then generic_percol_shortv_cost e
  else generic_percol_normal_cost e

/-- generic_vector_eval, per_column: evaluator_type. -/
def generic_percol_evaluator {T : Type} (e : MatExpr T) : PercolEvKind :=
  if percol_can_direct e then PercolEvKind.dense else PercolEvKind.cached

/-- vector_eval, as_linear_vec: cost, with the const_matrix specialization
overriding the generic instantiation. -/
def vector_eval_linear_cost {T : Type} (e : MatExpr T) : Nat :=
  if e.is_const then 0 else generic_linear_cost e

/-- vector_eval, per_column: the normal_cost member (the generic partial
specialization forwards generic_vector_eval's normal_cost; the const_matrix
specialization defines it as 0). -/
def vector_eval_percol_normal_cost {T : Type} (e : MatExpr T) : Nat :=
  if e.is_const then 0 else generic_percol_normal_cost e

/-- vector_eval, per_column: the shortv_cost member (forwarded from
generic_vector_eval by the generic partial specialization; 0 for
const_matrix). -/
def vector_eval_percol_shortv_cost {T : Type} (e : MatExpr T) : Nat :=
  if e.is_const then 0 else generic_percol_shortv_cost e

/-- vector_eval, per_column: the cost member.  The generic per-column
partial specialization forwards only normal_cost and shortv_cost and does
not define cost; only the const_matrix specialization defines cost = 0.
The member is modelled as an Option: none means the member does not exist,
so any instantiation that reads it fails to build. -/
def vector_eval_percol_cost_member {T : Type} (e : MatExpr T) : Option Nat :=
  if e.is_const then some 0 else none

/-- vector_eval, as_linear_vec: evaluator_type, with the const_matrix
specialization overriding the generic instantiation. -/
def vector_eval_linear_evaluator {T : Type} (e : MatExpr T) : LinEvKind :=
  if e.is_const then LinEvKind.constant else generic_linear_evaluator e

/-- vector_eval, per_column: evaluator_type, with the const_matrix
specialization overriding the generic instantiation. -/
def vector_eval_percol_evaluator {T : Type} (e : MatExpr T) : PercolEvKind :=
  if e.is_const then PercolEvKind.constant else generic_percol_evaluator e

/-- vector_eval_default_policy: choose_linear = (linear_cost <= percol_cost),
where percol_cost reads the cost member of vector_eval with per_column.
When that member does not exist (every non-const expression) the policy
fails to instantiate: none. -/
def choose_linear {T : Type} (e : MatExpr T) : Option Bool :=
  (vector_eval_percol_cost_member e).map
    (fun pc => decide (vector_eval_linear_cost e ≤ pc))

/-- vector_eval_default_policy: the selected organization, when the policy
instantiates at all. -/
def vector_eval_default_org {T : Type} (e : MatExpr T) : Option Org :=
  (choose_linear e).map
    (fun b => if b then Org.as_linear_vec else Org.per_column)

/- ------------------------------------------------------------------
   Impl map: compile-time sizes combined across Expr and Dst
   ------------------------------------------------------------------ -/

/-- Modelled from the spec: the binary_ct_size / binary_ct_rows traits come
from matrix_properties.h, outside the provided sources.  They yield the
common compile-time dimension of expression and destination: statically
known when either side statically knows it (the external type system
enforces that both sides agree when both are static). -/
def binary_ct (a b : Option Nat) : Option Nat :=
  match a with
  | some n => some n
  | none => b

def MatExpr.ct_size {T : Type} (e : MatExpr T) : Option Nat :=
  match e.ct_rows, e.ct_cols with
  | some r, some c => some (r * c)
  | _, _ => none

def DenseMat.ct_size {T : Type} (m : DenseMat T) : Option Nat :=
  match m.ct_rows, m.ct_cols with
  | some r, some c => some (r * c)
  | _, _ => none

def binary_ct_size {T : Type} (e : MatExpr T) (dst : DenseMat T) : Option Nat :=
  binary_ct e.ct_size dst.ct_size

def binary_ct_rows {T : Type} (e : MatExpr T) (dst : DenseMat T) : Option Nat :=
  binary_ct e.ct_rows dst.ct_rows

/-- Coherence of a compile-time dimension with the run-time one: when the
dimension is statically known it equals the run-time value.  (The external
matrix type system guarantees this; it is a hypothesis of the run-time
theorems.) -/
def ct_ok (o : Option Nat) (n : Nat) : Bool :=
  match o with
  | some m => m == n
  | none => true

/- ------------------------------------------------------------------
   Dispatch entry point
   ------------------------------------------------------------------ -/

/-- The constructed linear evaluator, one constructor per resolved kind. -/
inductive LinEv (T : Type) where
  | continuous : continuous_linear_evaluator T → LinEv T
  | cached : cached_linear_evaluator T → LinEv T
  | constant : const_linear_evaluator T → LinEv T

def LinEv.get_value {T : Type} : LinEv T → Nat → T
  | LinEv.continuous ev, i => ev.get_value i
  | LinEv.cached ev, i => ev.get_value i
  | LinEv.constant ev, i => ev.get_value i

/-- The constructed per-column evaluator, one constructor per resolved kind. -/
inductive PercolEv (T : Type) where
  | dense : dense_percol_evaluator T → PercolEv T
  | cached : cached_percol_evaluator T → PercolEv T
  | constant : const_percol_evaluator T → PercolEv T

def PercolEv.get_value {T : Type} : PercolEv T → Nat → T
  | PercolEv.dense ev, i => ev.get_value i
  | PercolEv.cached ev, i => ev.get_value i
  | PercolEv.constant ev, i => ev.get_value i

def PercolEv.next_column {T : Type} : PercolEv T → PercolEv T
  | PercolEv.dense ev => PercolEv.dense ev.next_column
  | PercolEv.cached ev => PercolEv.cached ev.next_column
  | PercolEv.constant ev => PercolEv.constant ev.next_column

/-- Construction of the evaluator_type instance from the expression, for
linear organization (the evaluator(src.derived()) line of evaluate). -/
def make_linear_evaluator {T : Type} (e : MatExpr T) : LinEv T :=
  match vector_eval_linear_evaluator e with
  | LinEvKind.continuous => LinEv.continuous (continuous_linear_evaluator.ofMat e)
  | LinEvKind.cached => LinEv.cached (cached_linear_evaluator.ofExpr e)
  | LinEvKind.constant => LinEv.constant (const_linear_evaluator.ofMat e)

/-- Construction of the evaluator_type instance from the expression, for
per-column organization. -/
def make_percol_evaluator {T : Type} (e : MatExpr T) : PercolEv T :=
  match vector_eval_percol_evaluator e with
  | PercolEvKind.dense => PercolEv.dense (dense_percol_evaluator.ofMat e)
  | PercolEvKind.cached => PercolEv.cached (cached_percol_evaluator.ofExpr e)
  | PercolEvKind.constant => PercolEv.constant (const_percol_evaluator.ofMat e)

/-- percol_eval_impl (both specializations, selected by CTRows): outer loop
over the ncols columns of dst, inner loop over rows, with the evaluator
advanced once per column. -/
def percol_eval_impl {T : Type} (CTRows : Option Nat) (ev : PercolEv T)
    (dst : DenseMat T) : DenseMat T :=
  { dst with
      data := applyWrites dst.data
        (percol_eval_writes PercolEv.get_value PercolEv.next_column
          (percol_rows CTRows dst) dst.ldim ev 0 dst.ncols) }

/-- evaluate(src, dst, vector_eval_policy<Org, by_scalars>()): resolves the
impl via vector_eval_impl_map, constructs the evaluator from the expression
and runs the loop. -/
def evaluate {T : Type} (e : MatExpr T) (dst : DenseMat T) : Org → DenseMat T
  | Org.as_linear_vec =>
      linear_eval_impl (binary_ct_size e dst) (make_linear_evaluator e).get_value dst
  | Org.per_column =>
      percol_eval_impl (binary_ct_rows e dst) (make_percol_evaluator e) dst

/-- linear_by_scalars_evaluate: the convenience entry point with the policy
fixed to (as_linear_vec, by_scalars). -/
def linear_by_scalars_evaluate {T : Type} (e : MatExpr T) (dst : DenseMat T) :
    DenseMat T :=
  evaluate e dst Org.as_linear_vec

/-- percol_by_scalars_evaluate: the convenience entry point with the policy
fixed to (per_column, by_scalars). -/
def percol_by_scalars_evaluate {T : Type} (e : MatExpr T) (dst : DenseMat T) :
    DenseMat T :=
  evaluate e dst Org.per_column

/- ------------------------------------------------------------------
   Concrete example instances (used by witnesses and counterexamples)
   ------------------------------------------------------------------ -/

/-- A 2 x 2 dense expression with continuous layout (ldim = nrows = 2),
holding the flat values 0, 1, 2, 3. -/
def exDense : MatExpr Int :=
  { is_dense := true
    continuous := true
    is_const := false
    value := 0
    ct_rows := some 2
    ct_cols := some 2
    nrows := 2
    ncols := 2
    ldim := 2
    data := fun k => (k : Int)
    elem := fun i j => (i : Int) + 2 * j }

/-- A 2 x 2 dense expression with a strided layout (ldim = 3 > nrows = 2):
dense but without continuous layout. -/
def exStrided : MatExpr Int :=
  { is_dense := true
    continuous := false
    is_const := false
    value := 0
    ct_rows := some 2
    ct_cols := some 2
    nrows := 2
    ncols := 2
    ldim := 3
    data := fun k => (k : Int)
    elem := fun i j => (i : Int) + 3 * j }

/-- A 2 x 2 non-dense (computed) expression: elem i j = 10 * i + j, with no
directly addressable storage. -/
def exComputed : MatExpr Int :=
  { is_dense := false
    continuous := false
    is_const := false
    value := 0
    ct_rows := some 2
    ct_cols := some 2
    nrows := 2
    ncols := 2
    ldim := 0
    data := fun _ => 0
    elem := fun i j => 10 * (i : Int) + j }

/-- A 2 x 2 constant (broadcast) expression with value 7. -/
def exConst : MatExpr Int :=
  { is_dense := false
    continuous := false
    is_const := true
    value := 7
    ct_rows := some 2
    ct_cols := some 2
    nrows := 2
    ncols := 2
    ldim := 0
    data := fun _ => 0
    elem := fun _ _ => 7 }

/-- A 2 x 2 contiguous destination with dynamic compile-time dimensions,
zero initialized. -/
def exDst : DenseMat Int :=
  { ct_rows := none
    ct_cols := none
    nrows := 2
    ncols := 2
    ldim := 2
    data := fun _ => 0 }

/-- A 2 x 2 strided destination (ldim = 5), zero initialized. -/
def exDstS : DenseMat Int :=
  { ct_rows := none
    ct_cols := none
    nrows := 2
    ncols := 2
    ldim := 5
    data := fun _ => 0 }

/- ------------------------------------------------------------------
   Helper lemmas: memory writes
   ------------------------------------------------------------------ -/

theorem applyWrites_append {T : Type} (d : Nat → T) (ws1 ws2 : List (Nat × T)) :
    applyWrites d (ws1 ++ ws2) = applyWrites (applyWrites d ws1) ws2 := by
  induction ws1 generalizing d with
  | nil => rfl
  | cons p ws ih =>
      cases p with
      | mk a v => exact ih (updFun d a v)

theorem applyWrites_miss {T : Type} (d : Nat → T) (ws : List (Nat × T)) (k : Nat)
    (h : ∀ p ∈ ws, p.1 ≠ k) : applyWrites d ws k = d k := by
  induction ws generalizing d with
  | nil => rfl
  | cons p ws ih =>
      cases p with
      | mk a v =>
          have ha : a ≠ k := h (a, v) (List.mem_cons_self _ _)
          have hstep : applyWrites (updFun d a v) ws k = updFun d a v k :=
            ih (updFun d a v) (fun q hq => h q (List.mem_cons_of_mem _ hq))
          have hk : ¬ (k = a) := fun h0 => ha (Eq.symm h0)
          simp only [applyWrites, hstep, updFun, if_neg hk]

/-- The last value written at address k by a write list, if any. -/
def writesVal {T : Type} : List (Nat × T) → Nat → Option T
  | [], _ => none
  | (a, v) :: ws, k =>
      match writesVal ws k with
      | some v2 => some v2
      | none => if k = a then some v else none

theorem applyWrites_eq_writesVal {T : Type} (d : Nat → T) (ws : List (Nat × T))
    (k : Nat) : applyWrites d ws k = (writesVal ws k).getD (d k) := by
  induction ws generalizing d with
  | nil => rfl
  | cons p ws ih =>
      cases p with
      | mk a v =>
          simp only [applyWrites, writesVal, ih (updFun d a v)]
          cases h : writesVal ws k with
          | some v2 => simp
          | none =>
              simp only [Option.getD, updFun]
              by_cases hk : k = a <;> simp [hk]

theorem applyWrites_idem {T : Type} (d : Nat → T) (ws : List (Nat × T)) :
    applyWrites (applyWrites d ws) ws = applyWrites d ws := by
  funext k
  rw [applyWrites_eq_writesVal, applyWrites_eq_writesVal]
  cases h : writesVal ws k with
  | some v => simp [h]
  | none => simp [h, applyWrites_eq_writesVal, h]

/- ------------------------------------------------------------------
   Helper lemmas: the inner row loop
   ------------------------------------------------------------------ -/

theorem colBlock_mem {T : Type} (get : Nat → T) (base r : Nat)
    (p : Nat × T) (hp : p ∈ colBlock get base r) :
    ∃ i, i < r ∧ p.1 = base + i := by
  unfold colBlock at hp
  rcases List.mem_map.mp hp with ⟨i, hi, rfl⟩
  exact ⟨i, List.mem_range.mp hi, rfl⟩

theorem applyWrites_colBlock_hit {T : Type} (d : Nat → T) (get : Nat → T)
    (base r i : Nat) (hi : i < r) :
    applyWrites d (colBlock get base r) (base + i) = get i := by
  induction r generalizing d i with
  | zero => omega
  | succ r ih =>
      have hsplit : colBlock get base (r + 1) =
          colBlock get base r ++ [(base + r, get r)] := by
        unfold colBlock
        rw [List.range_succ, List.map_append]
        rfl
      rw [hsplit, applyWrites_append]
      simp only [applyWrites, updFun]
      by_cases hir : i = r
      · subst hir; simp
      · have hlt : i < r := by omega
        have hne : base + i ≠ base + r := by omega
        simp only [if_neg hne]
        exact ih d i hlt

theorem applyWrites_colBlock {T : Type} (d : Nat → T) (get : Nat → T)
    (len k : Nat) :
    applyWrites d (colBlock get 0 len) k = if k < len then get k else d k := by
  by_cases hk : k < len
  · have := applyWrites_colBlock_hit d get 0 len k hk
    simpa using if_pos hk ▸ (by simpa using this)
  · rw [if_neg hk]
    refine applyWrites_miss d _ k (fun p hp => ?_)
    rcases colBlock_mem get 0 len p hp with ⟨i, hi, hpi⟩
    omega

theorem linear_eval_impl_data {T : Type} (CTSize : Option Nat) (get : Nat → T)
    (dst : DenseMat T) (k : Nat) :
    (linear_eval_impl CTSize get dst).data k =
      if k < linear_len CTSize dst then get k else dst.data k := by
  unfold linear_eval_impl linear_eval_writes
  exact applyWrites_colBlock dst.data get (linear_len CTSize dst) k

/- ------------------------------------------------------------------
   Helper lemmas: the per-column loop
   ------------------------------------------------------------------ -/

theorem percol_writes_addr_ge {T E : Type} (get : E → Nat → T) (next : E → E)
    (r ldim : Nat) :
    ∀ (c : Nat) (ev : E) (base : Nat) (p : Nat × T),
      p ∈ percol_eval_writes get next r ldim ev base c → base ≤ p.1 := by
  intro c
  induction c with
  | zero => intro ev base p hp; simp [percol_eval_writes] at hp
  | succ c ih =>
      intro ev base p hp
      unfold percol_eval_writes at hp
      rcases List.mem_append.mp hp with h1 | h2
      · rcases colBlock_mem _ _ _ _ h1 with ⟨i, _, hpi⟩
        omega
      · have := ih (next ev) (base + ldim) p h2
        omega

theorem percol_apply {T E : Type} (get : E → Nat → T) (next : E → E)
    (r ldim : Nat) (hrl : r ≤ ldim) :
    ∀ (c : Nat) (ev : E) (d : Nat → T) (base j i : Nat), j < c → i < r →
      applyWrites d (percol_eval_writes get next r ldim ev base c)
          (base + (j * ldim + i)) =
        get (next^[j] ev) i := by
  intro c
  induction c with
  | zero => intro ev d base j i hj hi; omega
  | succ c ih =>
      intro ev d base j i hj hi
      unfold percol_eval_writes
      rw [applyWrites_append]
      cases j with
      | zero =>
          have haddr : base + (0 * ldim + i) = base + i := by omega
          rw [haddr]
          have hmiss : applyWrites (applyWrites d (colBlock (get ev) base r))
              (percol_eval_writes get next r ldim (next ev) (base + ldim) c)
              (base + i) = applyWrites d (colBlock (get ev) base r) (base + i) := by
            refine applyWrites_miss _ _ _ (fun p hp => ?_)
            have := percol_writes_addr_ge get next r ldim c (next ev) (base + ldim) p hp
            omega
          rw [hmiss, applyWrites_colBlock_hit _ _ _ _ _ hi]
          simp
      | succ j =>
          have haddr : base + ((j + 1) * ldim + i) =
              (base + ldim) + (j * ldim + i) := by
            have : (j + 1) * ldim = j * ldim + ldim := Nat.succ_mul j ldim
            omega
          rw [haddr, ih (next ev) _ (base + ldim) j i (by omega) hi,
            Function.iterate_succ_apply]

/-- The canonical form of the per-column write sequence: column blocks in
increasing column order, each block visiting rows in increasing order and
reading from the evaluator advanced exactly once per completed column. -/
theorem percol_writes_canonical {T E : Type} (get : E → Nat → T) (next : E → E)
    (r ldim : Nat) :
    ∀ (c : Nat) (ev : E) (base : Nat),
      percol_eval_writes get next r ldim ev base c =
        ((List.range c).map (fun j =>
          (List.range r).map (fun i =>
            (base + (j * ldim + i), get (next^[j] ev) i)))).flatten := by
  intro c
  induction c with
  | zero => intro ev base; simp [percol_eval_writes]
  | succ c ih =>
      intro ev base
      unfold percol_eval_writes
      rw [List.range_succ_eq_map, List.map_cons, List.map_map, List.flatten_cons]
      congr 1
      · unfold colBlock
        refine List.map_congr_left (fun i _ => ?_)
        simp
      · rw [ih (next ev) (base + ldim)]
        congr 1
        refine List.map_congr_left (fun j _ => ?_)
        simp only [Function.comp]
        refine List.map_congr_left (fun i _ => ?_)
        have h1 : base + (Nat.succ j * ldim + i) = (base + ldim) + (j * ldim + i) := by
          have hs : Nat.succ j * ldim = j * ldim + ldim := Nat.succ_mul j ldim
          omega
        have h2 : next^[Nat.succ j] ev = next^[j] (next ev) :=
          Function.iterate_succ_apply next j ev
        rw [h1, h2]

theorem percol_eval_impl_data {T : Type} (CTRows : Option Nat) (ev : PercolEv T)
    (dst : DenseMat T) (i j : Nat)
    (hrl : percol_rows CTRows dst ≤ dst.ldim)
    (hi : i < percol_rows CTRows dst) (hj : j < dst.ncols) :
    (percol_eval_impl CTRows ev dst).data (i + j * dst.ldim) =
      PercolEv.get_value (PercolEv.next_column^[j] ev) i := by
  unfold percol_eval_impl
  have haddr : i + j * dst.ldim = 0 + (j * dst.ldim + i) := by omega
  rw [haddr]
  exact percol_apply PercolEv.get_value PercolEv.next_column _ dst.ldim hrl
    dst.ncols ev dst.data 0 j i hj hi

/- ------------------------------------------------------------------
   Helper lemmas: evaluator state after column advances
   ------------------------------------------------------------------ -/

theorem dense_percol_iterate {T : Type} (ev : dense_percol_evaluator T) :
    ∀ (k : Nat),
      (dense_percol_evaluator.next_column^[k] ev).m_ldim = ev.m_ldim ∧
      ∀ i, (dense_percol_evaluator.next_column^[k] ev).get_value i =
        ev.m_data (i + k * ev.m_ldim) := by
  intro k
  induction k generalizing ev with
  | zero =>
      refine ⟨rfl, fun i => ?_⟩
      simp [dense_percol_evaluator.get_value]
  | succ k ih =>
      rw [Function.iterate_succ_apply]
      rcases ih ev.next_column with ⟨hl, hv⟩
      refine ⟨hl, fun i => ?_⟩
      rw [hv i]
      simp only [dense_percol_evaluator.next_column]
      have harith : i + k * ev.m_ldim + ev.m_ldim = i + (k + 1) * ev.m_ldim := by
        have hs : (k + 1) * ev.m_ldim = k * ev.m_ldim + ev.m_ldim :=
          Nat.succ_mul k ev.m_ldim
        omega
      rw [harith]

theorem cached_percol_iterate {T : Type} (ev : cached_percol_evaluator T) :
    ∀ (k : Nat),
      (cached_percol_evaluator.next_column^[k] ev).m_ldim = ev.m_ldim ∧
      (cached_percol_evaluator.next_column^[k] ev).m_cache = ev.m_cache ∧
      ∀ i, (cached_percol_evaluator.next_column^[k] ev).get_value i =
        ev.m_data (i + k * ev.m_ldim) := by
  intro k
  induction k generalizing ev with
  | zero =>
      refine ⟨rfl, rfl, fun i => ?_⟩
      simp [cached_percol_evaluator.get_value]
  | succ k ih =>
      rw [Function.iterate_succ_apply]
      rcases ih ev.next_column with ⟨hl, hc, hv⟩
      refine ⟨hl, hc, fun i => ?_⟩
      rw [hv i]
      simp only [cached_percol_evaluator.next_column]
      have harith : i + k * ev.m_ldim + ev.m_ldim = i + (k + 1) * ev.m_ldim := by
        have hs : (k + 1) * ev.m_ldim = k * ev.m_ldim + ev.m_ldim :=
          Nat.succ_mul k ev.m_ldim
        omega
      rw [harith]

theorem percolEv_iterate_dense {T : Type} (ev : dense_percol_evaluator T) (k : Nat) :
    PercolEv.next_column^[k] (PercolEv.dense ev) =
      PercolEv.dense (dense_percol_evaluator.next_column^[k] ev) := by
  induction k generalizing ev with
  | zero => rfl
  | succ k ih =>
      rw [Function.iterate_succ_apply, Function.iterate_succ_apply]
      exact ih ev.next_column

theorem percolEv_iterate_cached {T : Type} (ev : cached_percol_evaluator T) (k : Nat) :
    PercolEv.next_column^[k] (PercolEv.cached ev) =
      PercolEv.cached (cached_percol_evaluator.next_column^[k] ev) := by
  induction k generalizing ev with
  | zero => rfl
  | succ k ih =>
      rw [Function.iterate_succ_apply, Function.iterate_succ_apply]
      exact ih ev.next_column

theorem percolEv_iterate_const {T : Type} (ev : const_percol_evaluator T) (k : Nat) :
    PercolEv.next_column^[k] (PercolEv.constant ev) = PercolEv.constant ev :=
  Function.iterate_fixed rfl k

/- ------------------------------------------------------------------
   Helper lemmas: trait coherence and the impl-map dimensions
   ------------------------------------------------------------------ -/

theorem ct_ok_eq {o : Option Nat} {n m : Nat} (h : ct_ok o n = true)
    (ho : o = some m) : m = n := by
  subst ho
  simpa [ct_ok] using h

theorem linear_len_eq {T : Type} (e : MatExpr T) (dst : DenseMat T)
    (h1 : ct_ok e.ct_rows dst.nrows = true) (h2 : ct_ok e.ct_cols dst.ncols = true)
    (h3 : ct_ok dst.ct_rows dst.nrows = true) (h4 : ct_ok dst.ct_cols dst.ncols = true) :
    linear_len (binary_ct_size e dst) dst = dst.nelems := by
  unfold linear_len binary_ct_size binary_ct MatExpr.ct_size DenseMat.ct_size
    DenseMat.nelems
  cases her : e.ct_rows with
  | some r =>
      cases hec : e.ct_cols with
      | some c =>
          have hr := ct_ok_eq h1 her
          have hc := ct_ok_eq h2 hec
          simp [hr, hc]
      | none =>
          cases hdr : dst.ct_rows with
          | some r2 =>
              cases hdc : dst.ct_cols with
              | some c2 =>
                  have hr2 := ct_ok_eq h3 hdr
                  have hc2 := ct_ok_eq h4 hdc
                  simp [hr2, hc2]
              | none => simp
          | none => simp
  | none =>
      cases hdr : dst.ct_rows with
      | some r2 =>
          cases hdc : dst.ct_cols with
          | some c2 =>
              have hr2 := ct_ok_eq h3 hdr
              have hc2 := ct_ok_eq h4 hdc
              simp [hr2, hc2]
          | none => simp
      | none => simp

theorem percol_rows_eq {T : Type} (e : MatExpr T) (dst : DenseMat T)
    (h1 : ct_ok e.ct_rows dst.nrows = true) (h3 : ct_ok dst.ct_rows dst.nrows = true) :
    percol_rows (binary_ct_rows e dst) dst = dst.nrows := by
  unfold percol_rows binary_ct_rows binary_ct
  cases her : e.ct_rows with
  | some r => simpa using ct_ok_eq h1 her
  | none =>
      cases hdr : dst.ct_rows with
      | some r2 => simpa using ct_ok_eq h3 hdr
      | none => simp

/- ------------------------------------------------------------------
   Helper lemmas: resolved evaluator construction
   ------------------------------------------------------------------ -/

theorem make_linear_continuous {T : Type} (e : MatExpr T)
    (hc : e.is_const = false) (hd : e.is_dense = true) (hl : e.continuous = true) :
    make_linear_evaluator e = LinEv.continuous (continuous_linear_evaluator.ofMat e) := by
  unfold make_linear_evaluator vector_eval_linear_evaluator generic_linear_evaluator
    linear_can_direct
  rw [hc, hd, hl]
  rfl

theorem make_linear_cached {T : Type} (e : MatExpr T)
    (hc : e.is_const = false) (hnd : (e.is_dense && e.continuous) = false) :
    make_linear_evaluator e = LinEv.cached (cached_linear_evaluator.ofExpr e) := by
  unfold make_linear_evaluator vector_eval_linear_evaluator generic_linear_evaluator
    linear_can_direct
  rw [hc, hnd]
  rfl

theorem make_linear_const {T : Type} (e : MatExpr T) (hc : e.is_const = true) :
    make_linear_evaluator e = LinEv.constant (const_linear_evaluator.ofMat e) := by
  unfold make_linear_evaluator vector_eval_linear_evaluator
  rw [hc]
  rfl

theorem make_percol_dense {T : Type} (e : MatExpr T)
    (hc : e.is_const = false) (hd : e.is_dense = true) :
    make_percol_evaluator e = PercolEv.dense (dense_percol_evaluator.ofMat e) := by
  unfold make_percol_evaluator vector_eval_percol_evaluator generic_percol_evaluator
    percol_can_direct
  rw [hc, hd]
  rfl

theorem make_percol_cached {T : Type} (e : MatExpr T)
    (hc : e.is_const = false) (hnd : e.is_dense = false) :
    make_percol_evaluator e = PercolEv.cached (cached_percol_evaluator.ofExpr e) := by
  unfold make_percol_evaluator vector_eval_percol_evaluator generic_percol_evaluator
    percol_can_direct
  rw [hc, hnd]
  rfl

theorem make_percol_const {T : Type} (e : MatExpr T) (hc : e.is_const = true) :
    make_percol_evaluator e = PercolEv.constant (const_percol_evaluator.ofMat e) := by
  unfold make_percol_evaluator vector_eval_percol_evaluator
  rw [hc]
  rfl

/- ------------------------------------------------------------------
   Helper lemmas: column-major flat index arithmetic
   ------------------------------------------------------------------ -/

theorem flat_mod {i j nr : Nat} (hi : i < nr) : (i + j * nr) % nr = i := by
  rw [Nat.add_mul_mod_self_right, Nat.mod_eq_of_lt hi]

theorem flat_div {i j nr : Nat} (hi : i < nr) : (i + j * nr) / nr = j := by
  rw [Nat.add_mul_div_right i j (by omega : 0 < nr), Nat.div_eq_of_lt hi]
  omega

theorem flat_lt {i j nr nc : Nat} (hi : i < nr) (hj : j < nc) :
    i + j * nr < nr * nc := by
  have h1 : i + j * nr < (j + 1) * nr := by
    have hs : (j + 1) * nr = j * nr + nr := Nat.succ_mul j nr
    omega
  have h2 : (j + 1) * nr ≤ nc * nr := Nat.mul_le_mul_right nr (by omega)
  have h3 : nc * nr = nr * nc := Nat.mul_comm nc nr
  omega

/- ------------------------------------------------------------------
   Claims
   ------------------------------------------------------------------ -/

/-- Claim C1: the linear evaluation loop writes dst[i] = evaluator.get_value(i)
for every i from 0 up to the traversal length, where the length is the
compile-time constant when statically known and otherwise the element count
of the destination; consequently, for a dense contiguous expression and a
matching destination, linear evaluation yields dst[k] = expr.flatten()[k]
for every flattened index k. -/
theorem claim_C1 :
    (∀ (T : Type) (get : Nat → T) (CTSize : Option Nat) (dst : DenseMat T) (k : Nat),
      (linear_eval_impl CTSize get dst).data k =
        if k < linear_len CTSize dst then get k else dst.data k)
    ∧
    (∀ (T : Type) (e : MatExpr T) (dst : DenseMat T),
      e.is_dense = true → e.continuous = true → e.is_const = false →
      e.ldim = e.nrows →
      (∀ i, i < e.nrows → ∀ j, j < e.ncols → e.elem i j = e.data (i + j * e.ldim)) →
      e.nrows = dst.nrows → e.ncols = dst.ncols →
      ct_ok e.ct_rows dst.nrows = true → ct_ok e.ct_cols dst.ncols = true →
      ct_ok dst.ct_rows dst.nrows = true → ct_ok dst.ct_cols dst.ncols = true →
      ∀ k, k < dst.nelems →
        (linear_by_scalars_evaluate e dst).data k = e.flatten k) := by
  constructor
  · intro T get CTSize dst k
    exact linear_eval_impl_data CTSize get dst k
  · intro T e dst hd hl hc hld coh hnr hnc h1 h2 h3 h4 k hk
    have hev := make_linear_continuous e hc hd hl
    show (linear_eval_impl (binary_ct_size e dst)
        (make_linear_evaluator e).get_value dst).data k = e.flatten k
    rw [linear_eval_impl_data, linear_len_eq e dst h1 h2 h3 h4, if_pos hk, hev]
    have hk2 : k < e.nrows * e.ncols := by
      have : dst.nelems = dst.nrows * dst.ncols := rfl
      rw [hnr, hnc]
      omega
    have hnr0 : 0 < e.nrows := by
      rcases Nat.eq_zero_or_pos e.nrows with h0 | h
      · rw [h0, Nat.zero_mul] at hk2; omega
      · exact h
    have hmod : k % e.nrows < e.nrows := Nat.mod_lt _ hnr0
    have hdiv : k / e.nrows < e.ncols := Nat.div_lt_of_lt_mul hk2
    show e.data k = e.flatten k
    unfold MatExpr.flatten
    rw [coh _ hmod _ hdiv, hld]
    congr 1
    have : k % e.nrows + k / e.nrows * e.nrows = k := by
      rw [Nat.mul_comm]
      exact Nat.mod_add_div k e.nrows
    omega

/-- Witness for C1 at a concrete 2 x 2 dense contiguous expression. -/
theorem claim_C1_witness :
    (linear_by_scalars_evaluate exDense exDst).data 2 = exDense.flatten 2 :=
  claim_C1.2 Int exDense exDst rfl rfl rfl rfl (by decide) rfl rfl (by decide)
    (by decide) (by decide) (by decide) 2 (by decide)

/-- Claim C2: the per-column loop writes each column block in increasing row
order, advancing the evaluator exactly once per completed column (the write
trace is the flattening of the per-column blocks, column j reading from the
evaluator advanced j times); consequently, for a dense strided expression,
per-column evaluation yields dst[i + j*ldim] = expr(i, j) for all valid
(i, j). -/
theorem claim_C2 :
    (∀ (T E : Type) (get : E → Nat → T) (next : E → E) (r ldim ncols : Nat) (ev : E),
      percol_eval_writes get next r ldim ev 0 ncols =
        ((List.range ncols).map (fun j =>
          (List.range r).map (fun i =>
            (j * ldim + i, get (next^[j] ev) i)))).flatten)
    ∧
    (∀ (T : Type) (e : MatExpr T) (dst : DenseMat T),
      e.is_dense = true → e.is_const = false →
      (∀ i, i < e.nrows → ∀ j, j < e.ncols → e.elem i j = e.data (i + j * e.ldim)) →
      e.nrows = dst.nrows → e.ncols = dst.ncols →
      ct_ok e.ct_rows dst.nrows = true → ct_ok dst.ct_rows dst.nrows = true →
      dst.nrows ≤ dst.ldim →
      ∀ i, i < dst.nrows → ∀ j, j < dst.ncols →
        (percol_by_scalars_evaluate e dst).data (i + j * dst.ldim) = e.elem i j) := by
  constructor
  · intro T E get next r ldim ncols ev
    rw [percol_writes_canonical get next r ldim ncols ev 0]
    simp only [Nat.zero_add]
  · intro T e dst hd hc coh hnr hnc h1 h3 hld i hi j hj
    have hrows := percol_rows_eq e dst h1 h3
    show (percol_eval_impl (binary_ct_rows e dst) (make_percol_evaluator e) dst).data
        (i + j * dst.ldim) = e.elem i j
    rw [percol_eval_impl_data (binary_ct_rows e dst) (make_percol_evaluator e) dst i j
      (by omega) (by omega) hj]
    rw [make_percol_dense e hc hd, percolEv_iterate_dense]
    show (dense_percol_evaluator.next_column^[j]
        (dense_percol_evaluator.ofMat e)).get_value i = e.elem i j
    rw [(dense_percol_iterate (dense_percol_evaluator.ofMat e) j).2 i]
    have hi2 : i < e.nrows := by omega
    have hj2 : j < e.ncols := by omega
    exact (coh i hi2 j hj2).symm

/-- Witness for C2 at a concrete 2 x 2 dense strided expression written into
a strided destination. -/
theorem claim_C2_witness :
    (percol_by_scalars_evaluate exStrided exDstS).data (1 + 1 * exDstS.ldim) =
      exStrided.elem 1 1 :=
  claim_C2.2 Int exStrided exDstS rfl rfl (by decide) rfl rfl (by decide)
    (by decide) (by decide) 1 (by decide) 1 (by decide)

/-- Claim C3: the per-column cost is zero for a dense expression (any stride)
and the cache penalty otherwise; the fixed short-vector penalty is added
exactly when the compile-time row count is statically known and below the
short-vector threshold; a dynamic row count receives no penalty. -/
theorem claim_C3 :
    ∀ (T : Type) (e : MatExpr T),
      (e.is_dense = true → generic_percol_normal_cost e = 0) ∧
      (e.is_dense = false → generic_percol_normal_cost e = VEC_EVAL_CACHE_COST) ∧
      (∀ r, e.ct_rows = some r → r < SHORTVEC_LENGTH_THRESHOLD →
        generic_percol_cost e = SHORTVEC_PERCOL_COST + generic_percol_normal_cost e) ∧
      (∀ r, e.ct_rows = some r → SHORTVEC_LENGTH_THRESHOLD ≤ r →
        generic_percol_cost e = generic_percol_normal_cost e) ∧
      (e.ct_rows = none → generic_percol_cost e = generic_percol_normal_cost e) := by
  intro T e
  refine ⟨?_, ?_, ?_, ?_, ?_⟩
  · intro h; simp [generic_percol_normal_cost, percol_can_direct, h]
  · intro h; simp [generic_percol_normal_cost, percol_can_direct, h]
  · intro r hr hlt
    simp [generic_percol_cost, has_short_col, hr, hlt, generic_percol_shortv_cost]
  · intro r hr hge
    simp [generic_percol_cost, has_short_col, hr, Nat.not_lt.mpr hge]
  · intro hr
    simp [generic_percol_cost, has_short_col, hr]

/-- Witness for C3: the strided 2-row example has a statically known short
row count, so the penalty is added on top of its normal cost. -/
theorem claim_C3_witness :
    generic_percol_cost exStrided =
      SHORTVEC_PERCOL_COST + generic_percol_normal_cost exStrided :=
  (claim_C3 Int exStrided).2.2.1 2 rfl (by decide)

/-- Claim C4 (code bug): vector_eval_default_policy reads the cost member of
the per-column vector_eval specialization, but for every non-constant
expression that member does not exist (the generic per-column partial
specialization forwards only normal_cost and shortv_cost), so the selector
fails to build and chooses no organization at all: in particular at the
dense contiguous short-row expression exDense highlighted by the claim.
The only expressions whose selector instantiates are the const_matrix ones,
where both costs are 0 and the tie resolves to linear as the claim
describes. -/
theorem claim_C4 :
    (∀ (T : Type) (e : MatExpr T), e.is_const = false →
      vector_eval_percol_cost_member e = none ∧
      choose_linear e = none ∧
      vector_eval_default_org e = none) ∧
    (∀ (T : Type) (e : MatExpr T), e.is_const = true →
      vector_eval_percol_cost_member e = some 0 ∧
      vector_eval_linear_cost e = 0 ∧
      vector_eval_default_org e = some Org.as_linear_vec) ∧
    vector_eval_percol_cost_member exDense = none ∧
    vector_eval_default_org exDense = none := by
  refine ⟨?_, ?_, rfl, rfl⟩
  · intro T e hc
    refine ⟨?_, ?_, ?_⟩ <;>
      simp [vector_eval_percol_cost_member, choose_linear,
        vector_eval_default_org, hc]
  · intro T e hc
    refine ⟨?_, ?_, ?_⟩ <;>
      simp [vector_eval_percol_cost_member, choose_linear,
        vector_eval_default_org, vector_eval_linear_cost, hc]

/-- Witness for C4 at the concrete strided non-constant expression: the cost
member is absent and the default-policy selector does not instantiate. -/
theorem claim_C4_witness :
    vector_eval_percol_cost_member exStrided = none ∧
    choose_linear exStrided = none ∧
    vector_eval_default_org exStrided = none :=
  claim_C4.1 Int exStrided rfl

/-- Claim C5: under linear organization the generic map has zero cost and
resolves to the continuous evaluator exactly when the expression is dense
with continuous layout; otherwise the cost is the cache penalty and the
cached evaluator is resolved. -/
theorem claim_C5 :
    ∀ (T : Type) (e : MatExpr T),
      ((e.is_dense = true ∧ e.continuous = true) →
        generic_linear_cost e = 0 ∧ generic_linear_evaluator e = LinEvKind.continuous) ∧
      (¬(e.is_dense = true ∧ e.continuous = true) →
        generic_linear_cost e = VEC_EVAL_CACHE_COST ∧
          generic_linear_evaluator e = LinEvKind.cached) ∧
      (generic_linear_cost e = 0 ↔ (e.is_dense = true ∧ e.continuous = true)) ∧
      (generic_linear_evaluator e = LinEvKind.continuous ↔
        (e.is_dense = true ∧ e.continuous = true)) := by
  intro T e
  cases hd : e.is_dense <;> cases hc : e.continuous <;>
    simp [generic_linear_cost, generic_linear_evaluator, linear_can_direct,
      hd, hc, VEC_EVAL_CACHE_COST]

/-- Witness for C5 at the dense contiguous example: zero cost, continuous
evaluator. -/
theorem claim_C5_witness :
    generic_linear_cost exDense = 0 ∧
      generic_linear_evaluator exDense = LinEvKind.continuous :=
  (claim_C5 Int exDense).1 ⟨rfl, rfl⟩

/-- Counterexample to C6 as stated: at the concrete dense, non-contiguous
expression exStrided, requesting linear organization is not rejected: the
map resolves to a usable cached linear evaluator (at the cache cost) and the
evaluation runs, producing the flattened expression values. -/
theorem claim_C6_counterexample :
    vector_eval_linear_evaluator exStrided = LinEvKind.cached ∧
    generic_linear_cost exStrided = VEC_EVAL_CACHE_COST ∧
    (linear_by_scalars_evaluate exStrided exDst).data 0 = exStrided.flatten 0 ∧
    (linear_by_scalars_evaluate exStrided exDst).data 3 = exStrided.flatten 3 := by
  refine ⟨rfl, rfl, ?_, ?_⟩ <;> decide

/-- Claim C6, amended: requesting linear organization for a dense but
non-contiguous expression is not rejected; the map resolves to the cached
linear evaluator at the cache cost (only the direct continuous evaluator
statically requires a contiguous layout), and the evaluation succeeds,
writing the flattened expression values into the destination. -/
theorem claim_C6_amended :
    ∀ (T : Type) (e : MatExpr T) (dst : DenseMat T),
      e.is_dense = true → e.continuous = false → e.is_const = false →
      (vector_eval_linear_evaluator e = LinEvKind.cached ∧
        generic_linear_cost e = VEC_EVAL_CACHE_COST) ∧
      (ct_ok e.ct_rows dst.nrows = true → ct_ok e.ct_cols dst.ncols = true →
        ct_ok dst.ct_rows dst.nrows = true → ct_ok dst.ct_cols dst.ncols = true →
        ∀ k, k < dst.nelems →
          (linear_by_scalars_evaluate e dst).data k = e.flatten k) := by
  intro T e dst hd hncont hc
  have hnd : (e.is_dense && e.continuous) = false := by rw [hd, hncont]; rfl
  constructor
  · constructor
    · simp [vector_eval_linear_evaluator, hc, generic_linear_evaluator,
        linear_can_direct, hnd]
    · simp [generic_linear_cost, linear_can_direct, hnd]
  · intro h1 h2 h3 h4 k hk
    show (linear_eval_impl (binary_ct_size e dst)
        (make_linear_evaluator e).get_value dst).data k = e.flatten k
    rw [linear_eval_impl_data, linear_len_eq e dst h1 h2 h3 h4, if_pos hk,
      make_linear_cached e hc hnd]
    rfl

/-- Witness for the amended C6 at the same strided expression. -/
theorem claim_C6_amended_witness :
    (linear_by_scalars_evaluate exStrided exDst).data 1 = exStrided.flatten 1 :=
  (claim_C6_amended Int exStrided exDst rfl rfl rfl).2 (by decide) (by decide)
    (by decide) (by decide) 1 (by decide)

/-- Claim C7: a constant (broadcast) expression resolves to the constant
evaluator unconditionally under both organizations with cost zero, and
after evaluation every destination element equals the constant value under
either organization. -/
theorem claim_C7 :
    (∀ (T : Type) (e : MatExpr T), e.is_const = true →
      vector_eval_linear_evaluator e = LinEvKind.constant ∧
      vector_eval_percol_evaluator e = PercolEvKind.constant ∧
      vector_eval_linear_cost e = 0 ∧
      vector_eval_percol_cost_member e = some 0 ∧
      vector_eval_percol_normal_cost e = 0 ∧
      vector_eval_percol_shortv_cost e = 0) ∧
    (∀ (T : Type) (e : MatExpr T) (dst : DenseMat T), e.is_const = true →
      ct_ok e.ct_rows dst.nrows = true → ct_ok e.ct_cols dst.ncols = true →
      ct_ok dst.ct_rows dst.nrows = true → ct_ok dst.ct_cols dst.ncols = true →
      dst.ldim = dst.nrows →
      ∀ i, i < dst.nrows → ∀ j, j < dst.ncols →
        (linear_by_scalars_evaluate e dst).data (i + j * dst.ldim) = e.value) ∧
    (∀ (T : Type) (e : MatExpr T) (dst : DenseMat T), e.is_const = true →
      ct_ok e.ct_rows dst.nrows = true → ct_ok dst.ct_rows dst.nrows = true →
      dst.nrows ≤ dst.ldim →
      ∀ i, i < dst.nrows → ∀ j, j < dst.ncols →
        (percol_by_scalars_evaluate e dst).data (i + j * dst.ldim) = e.value) := by
  refine ⟨?_, ?_, ?_⟩
  · intro T e hc
    refine ⟨?_, ?_, ?_, ?_, ?_, ?_⟩ <;>
      simp [vector_eval_linear_evaluator, vector_eval_percol_evaluator,
        vector_eval_linear_cost, vector_eval_percol_cost_member,
        vector_eval_percol_normal_cost, vector_eval_percol_shortv_cost, hc]
  · intro T e dst hc h1 h2 h3 h4 hld i hi j hj
    have hpos : i + j * dst.ldim < dst.nelems := by
      rw [hld]
      exact flat_lt hi hj
    show (linear_eval_impl (binary_ct_size e dst)
        (make_linear_evaluator e).get_value dst).data (i + j * dst.ldim) = e.value
    rw [linear_eval_impl_data, linear_len_eq e dst h1 h2 h3 h4, if_pos hpos,
      make_linear_const e hc]
    rfl
  · intro T e dst hc h1 h3 hld i hi j hj
    have hrows := percol_rows_eq e dst h1 h3
    show (percol_eval_impl (binary_ct_rows e dst)
        (make_percol_evaluator e) dst).data (i + j * dst.ldim) = e.value
    rw [percol_eval_impl_data _ _ dst i j (by omega) (by omega) hj,
      make_percol_const e hc, percolEv_iterate_const]
    rfl

/-- Witness for C7 at the constant expression written per-column into a
strided destination. -/
theorem claim_C7_witness :
    (percol_by_scalars_evaluate exConst exDstS).data (0 + 1 * exDstS.ldim) =
      exConst.value :=
  claim_C7.2.2 Int exConst exDstS rfl (by decide) (by decide) (by decide) 0
    (by decide) 1 (by decide)

/-- Claim C8: a non-dense expression resolves to the cached evaluator; the
cache is materialized in one pass at construction time, reading each logical
element exactly once (the materialization trace contains every valid index
pair once, and the cache content is exactly the trace evaluation); get_value
is served from the private temporary, and evaluation through the cached
evaluator still writes dst[i + j*ldim] = expr(i, j) for every element. -/
theorem claim_C8 :
    (∀ (T : Type) (e : MatExpr T), e.is_dense = false → e.is_const = false →
      vector_eval_linear_evaluator e = LinEvKind.cached ∧
      vector_eval_percol_evaluator e = PercolEvKind.cached) ∧
    (∀ nr nc : Nat, (materializeTrace nr nc).Nodup) ∧
    (∀ nr nc i j : Nat, i < nr → j < nc → (i, j) ∈ materializeTrace nr nc) ∧
    (∀ (T : Type) (e : MatExpr T) (i : Nat),
      (cached_linear_evaluator.ofExpr e).get_value i = (dense_matrix_ofExpr e).data i ∧
      (cached_percol_evaluator.ofExpr e).get_value i = (dense_matrix_ofExpr e).data i) ∧
    (∀ (T : Type) (e : MatExpr T) (k : Nat), k < e.nrows * e.ncols →
      ((materializeTrace e.nrows e.ncols).map (fun p => e.elem p.1 p.2))[k]? =
        some ((dense_matrix_ofExpr e).data k)) ∧
    (∀ (T : Type) (e : MatExpr T) (dst : DenseMat T),
      e.is_dense = false → e.is_const = false →
      e.nrows = dst.nrows → e.ncols = dst.ncols →
      ct_ok e.ct_rows dst.nrows = true → ct_ok e.ct_cols dst.ncols = true →
      ct_ok dst.ct_rows dst.nrows = true → ct_ok dst.ct_cols dst.ncols = true →
      dst.nrows ≤ dst.ldim →
      ∀ i, i < dst.nrows → ∀ j, j < dst.ncols →
        (percol_by_scalars_evaluate e dst).data (i + j * dst.ldim) = e.elem i j ∧
        (dst.ldim = dst.nrows →
          (linear_by_scalars_evaluate e dst).data (i + j * dst.ldim) = e.elem i j)) := by
  refine ⟨?_, ?_, ?_, ?_, ?_, ?_⟩
  · intro T e hd hc
    constructor
    · simp [vector_eval_linear_evaluator, hc, generic_linear_evaluator,
        linear_can_direct, hd]
    · simp [vector_eval_percol_evaluator, hc, generic_percol_evaluator,
        percol_can_direct, hd]
  · intro nr nc
    unfold materializeTrace
    refine List.Nodup.map_on ?_ (List.nodup_range (nr * nc))
    intro x hx y hy hxy
    simp only [Prod.mk.injEq] at hxy
    obtain ⟨hm, hdv⟩ := hxy
    have hx2 : x = nr * (x / nr) + x % nr := (Nat.div_add_mod x nr).symm
    have hy2 : y = nr * (y / nr) + y % nr := (Nat.div_add_mod y nr).symm
    rw [hx2, hy2, hm, hdv]
  · intro nr nc i j hi hj
    unfold materializeTrace
    refine List.mem_map.mpr ⟨i + j * nr, List.mem_range.mpr (flat_lt hi hj), ?_⟩
    rw [flat_mod hi, flat_div hi]
  · intro T e i
    exact ⟨rfl, rfl⟩
  · intro T e k hk
    unfold materializeTrace
    rw [List.getElem?_map, List.getElem?_map, List.getElem?_range hk]
    rfl
  · intro T e dst hd hc hnr hnc h1 h2 h3 h4 hld i hi j hj
    have hi2 : i < e.nrows := by omega
    have hj2 : j < e.ncols := by omega
    constructor
    · have hrows := percol_rows_eq e dst h1 h3
      show (percol_eval_impl (binary_ct_rows e dst)
          (make_percol_evaluator e) dst).data (i + j * dst.ldim) = e.elem i j
      rw [percol_eval_impl_data _ _ dst i j (by omega) (by omega) hj,
        make_percol_cached e hc hd, percolEv_iterate_cached]
      show (cached_percol_evaluator.next_column^[j]
          (cached_percol_evaluator.ofExpr e)).get_value i = e.elem i j
      rw [(cached_percol_iterate (cached_percol_evaluator.ofExpr e) j).2.2 i]
      show e.elem ((i + j * e.nrows) % e.nrows) ((i + j * e.nrows) / e.nrows) =
        e.elem i j
      rw [flat_mod hi2, flat_div hi2]
    · intro hldeq
      have hpos : i + j * dst.ldim < dst.nelems := by
        rw [hldeq]
        exact flat_lt hi hj
      have hnd : (e.is_dense && e.continuous) = false := by
        rw [hd]
        exact Bool.false_and _
      show (linear_eval_impl (binary_ct_size e dst)
          (make_linear_evaluator e).get_value dst).data (i + j * dst.ldim) = e.elem i j
      rw [linear_eval_impl_data, linear_len_eq e dst h1 h2 h3 h4, if_pos hpos,
        make_linear_cached e hc hnd]
      show e.elem ((i + j * dst.ldim) % e.nrows) ((i + j * dst.ldim) / e.nrows) =
        e.elem i j
      rw [hldeq, ← hnr, flat_mod hi2, flat_div hi2]

/-- Witness for C8 at the non-dense computed expression evaluated per-column
into a strided destination. -/
theorem claim_C8_witness :
    (percol_by_scalars_evaluate exComputed exDstS).data (1 + 0 * exDstS.ldim) =
      exComputed.elem 1 0 :=
  (claim_C8.2.2.2.2.2 Int exComputed exDstS rfl rfl rfl rfl (by decide) (by decide)
    (by decide) (by decide) (by decide) 1 (by decide) 0 (by decide)).1

/-- Claim C9: evaluation is idempotent: calling evaluate again with the same
expression on the destination produced by a first call leaves the
destination unchanged, under either organization (no evaluator retains
cross-call state; the second call performs exactly the writes of the
first). -/
theorem claim_C9 :
    ∀ (T : Type) (e : MatExpr T) (dst : DenseMat T) (org : Org),
      evaluate e (evaluate e dst org) org = evaluate e dst org := by
  intro T e dst org
  cases org with
  | as_linear_vec =>
      exact congrArg (fun dd => { dst with data := dd })
        (applyWrites_idem dst.data
          (linear_eval_writes (make_linear_evaluator e).get_value
            (linear_len (binary_ct_size e dst) dst)))
  | per_column =>
      exact congrArg (fun dd => { dst with data := dd })
        (applyWrites_idem dst.data
          (percol_eval_writes PercolEv.get_value PercolEv.next_column
            (percol_rows (binary_ct_rows e dst) dst) dst.ldim
            (make_percol_evaluator e) 0 dst.ncols))

/-- Claim C10: after exactly k column advances, the dense per-column
evaluator reads element i + k*ldim of the wrapped matrix, where ldim is the
lead dimension captured from the wrapped matrix at construction; the cached
per-column evaluator does the same over its private temporary, whose lead
dimension it captures. -/
theorem claim_C10 :
    ∀ (T : Type) (e : MatExpr T) (k i : Nat),
      (dense_percol_evaluator.ofMat e).m_ldim = e.ldim ∧
      (dense_percol_evaluator.next_column^[k]
          (dense_percol_evaluator.ofMat e)).get_value i =
        e.data (i + k * e.ldim) ∧
      (cached_percol_evaluator.ofExpr e).m_ldim = (dense_matrix_ofExpr e).ldim ∧
      (cached_percol_evaluator.next_column^[k]
          (cached_percol_evaluator.ofExpr e)).get_value i =
        (dense_matrix_ofExpr e).data (i + k * (dense_matrix_ofExpr e).ldim) := by
  intro T e k i
  refine ⟨rfl, ?_, rfl, ?_⟩
  · exact (dense_percol_iterate (dense_percol_evaluator.ofMat e) k).2 i
  · exact (cached_percol_iterate (cached_percol_evaluator.ofExpr e) k).2.2 i

/-- Witness for C9 at the dense contiguous example under linear
organization. -/
theorem claim_C9_witness :
    evaluate exDense (evaluate exDense exDst Org.as_linear_vec) Org.as_linear_vec =
      evaluate exDense exDst Org.as_linear_vec :=
  claim_C9 Int exDense exDst Org.as_linear_vec

/-- Witness for C10 at the strided example after one column advance. -/
theorem claim_C10_witness :
    (dense_percol_evaluator.ofMat exStrided).m_ldim = exStrided.ldim ∧
    (dense_percol_evaluator.next_column^[1]
        (dense_percol_evaluator.ofMat exStrided)).get_value 0 =
      exStrided.data (0 + 1 * exStrided.ldim) ∧
    (cached_percol_evaluator.ofExpr exStrided).m_ldim =
      (dense_matrix_ofExpr exStrided).ldim ∧
    (cached_percol_evaluator.next_column^[1]
        (cached_percol_evaluator.ofExpr exStrided)).get_value 0 =
      (dense_matrix_ofExpr exStrided).data
        (0 + 1 * (dense_matrix_ofExpr exStrided).ldim) :=
  claim_C10 Int exStrided 1 0
